import Mathlib

/-!
Shallow embedding of the `unoagent` UNO rules engine
(`src/unoagent/engine/{card,deck,game_state,rules}.py`).

Python lists are Lean lists in the same order; `list.pop()` pops from the
end (`popLast?`).  The `hands` dict is an association list with unique
keys (player ids are assumed distinct, matching dict semantics).
`random.shuffle` is modelled by an explicit `shuffle : List Card → List Card`
parameter; theorems assume it permutes (or preserves the length of) its
input.  Python exceptions (`KeyError`, `ValueError`) become an
`Except UnoError` result.
-/

namespace Uno

/-- `Color`: closed enumeration, in the source's declaration order. -/
inductive Color where
  | red
  | blue
  | green
  | yellow
deriving DecidableEq, Repr

/-- Iteration order of `for color in Color` in Python. -/
def colorList : List Color := [Color.red, Color.blue, Color.green, Color.yellow]

def colorStr : Color → String
  | Color.red => "red"
  | Color.blue => "blue"
  | Color.green => "green"
  | Color.yellow => "yellow"

/-- A UNO card: `color` is `none` exactly for wild cards (source invariant,
not enforced structurally here, matching the dataclass fields). -/
structure Card where
  color : Option Color
  value : String
deriving DecidableEq, Repr

def isWildValue (v : String) : Bool :=
  v == "wild" || v == "wild_draw_four"

/-- `Card.__str__`. -/
def cardStr (c : Card) : String :=
  match c.color with
  | none => c.value
  | some col => colorStr col ++ "_" ++ c.value

/-- `CARD_VALUES_STANDARD` from `deck.py`. -/
def CARD_VALUES_STANDARD : List String :=
  ["0", "1", "2", "3", "4", "5", "6", "7", "8", "9",
   "skip", "reverse", "draw_two"]

/-- The 108-card deck built by `create_deck` before shuffling. -/
def fullDeck : List Card :=
  (colorList.flatMap fun color =>
    Card.mk (some color) "0" ::
      (CARD_VALUES_STANDARD.drop 1).flatMap (fun v =>
        [Card.mk (some color) v, Card.mk (some color) v]))
  ++ (List.range 4).flatMap (fun _ =>
        [Card.mk none "wild", Card.mk none "wild_draw_four"])

/-- `create_deck`: the shuffle (seeded or not) is the explicit parameter. -/
def create_deck (shuffle : List Card → List Card) : List Card :=
  shuffle fullDeck

/-- Pop from the end of a Python list (`l.pop()`); `none` when empty. -/
def popLast? {α : Type} (l : List α) : Option (α × List α) :=
  match l.getLast? with
  | none => none
  | some x => some (x, l.dropLast)

abbrev Hands := List (String × List Card)

/-- Dict lookup `hands[pid]` / `hands.get(pid)`. -/
def lookupHand : Hands → String → Option (List Card)
  | [], _ => none
  | (k, v) :: rest, pid => if k = pid then some v else lookupHand rest pid

/-- Dict assignment `hands[pid] = h` for an existing key (keys are unique). -/
def updateHand (hands : Hands) (pid : String) (h : List Card) : Hands :=
  hands.map fun e => if e.1 = pid then (pid, h) else e

/-- `order.index(x)`: `none` models Python's `ValueError`. -/
def indexOf? : List String → String → Option Nat
  | [], _ => none
  | a :: rest, x => if a = x then some 0 else (indexOf? rest x).map (· + 1)

/-- Python's `(idx + direction) % len(order)` (Python `%` on a positive
modulus is the flooring remainder, i.e. `Int.emod` here). -/
def stepIdx (order : List String) (idx : Nat) (dir : Int) : Nat :=
  (((idx : Int) + dir).emod (order.length : Int)).toNat

/-- `GameState` (immutable dataclass). `discard_pile`: last is top;
`draw_pile`: cards pop from the end. -/
structure GameState where
  hands : Hands
  discard_pile : List Card
  draw_pile : List Card
  current_player : String
  direction : Int
  last_played_color : Option Color
  pending_draws : Nat
  winner : Option String := none
  player_order : List String := []
  history : List String := []
deriving DecidableEq, Repr

/-- `GameState.top_discard`. -/
def GameState.top_discard (s : GameState) : Option Card :=
  s.discard_pile.getLast?

/-- `PlayerView` dataclass. -/
structure PlayerView where
  my_hand : List Card
  discard_pile : List Card
  top_discard : Option Card
  current_player : String
  direction : Int
  last_played_color : Option Color
  pending_draws : Nat
  winner : Option String
  player_order : List String
  num_cards_per_player : List (String × Nat)
  history : List String
deriving DecidableEq, Repr

/-- `PlayerView.from_state`: own hand verbatim, every hand projected to
its count, history truncated to the last 10 entries. -/
def PlayerView.from_state (state : GameState) (player_id : String) : PlayerView :=
  { my_hand := (lookupHand state.hands player_id).getD []
    discard_pile := state.discard_pile
    top_discard := state.top_discard
    current_player := state.current_player
    direction := state.direction
    last_played_color := state.last_played_color
    pending_draws := state.pending_draws
    winner := state.winner
    player_order := state.player_order
    num_cards_per_player := state.hands.map fun e => (e.1, e.2.length)
    history := state.history.drop (state.history.length - 10) }

/-- Actions (`PlayCard` / `DrawCard`). -/
inductive Action where
  | playCard (card : Card) (chosen_color : Option Color)
  | drawCard
deriving DecidableEq, Repr

/-- Python exceptions apply_action can raise. -/
inductive UnoError where
  | wildNeedsColor
  | cardNotInHand
  | keyError
  | indexError
deriving DecidableEq, Repr

/-! ### `init_game` -/

/-- `{pid: [] for pid in player_ids}` (ids assumed distinct). -/
def initHands (player_ids : List String) : Hands :=
  player_ids.map fun pid => (pid, ([] : List Card))

/-- One inner pass of the deal loop: each player pops one card off the
deck end (skipped when the deck is empty). -/
def dealRound (player_ids : List String) (acc : Hands × List Card) :
    Hands × List Card :=
  player_ids.foldl
    (fun acc pid =>
      match popLast? acc.2 with
      | none => acc
      | some (c, rest) =>
        (updateHand acc.1 pid (((lookupHand acc.1 pid).getD []) ++ [c]), rest))
    acc

/-- `for _ in range(7): for pid in player_ids: ...`. -/
def deal7 (player_ids : List String) (deck : List Card) : Hands × List Card :=
  (List.range 7).foldl (fun acc _ => dealRound player_ids acc)
    (initHands player_ids, deck)

/-- The while-loop of `init_game` searching for a non-wild first card,
run over the reversed deck (head = the end cards pop from): returns the
first card (if found), the unpopped remainder (still reversed) and the
held-aside wilds in the order they were drawn. -/
def scanFirst : List Card → List Card → Option Card × List Card × List Card
  | [], wilds => (none, [], wilds)
  | c :: rest, wilds =>
    if isWildValue c.value then scanFirst rest (wilds ++ [c])
    else (some c, rest, wilds)

/-- `init_game(player_ids, seed)`, taking the already-shuffled deck from
`create_deck` as a parameter.  `player_ids` is assumed nonempty and
duplicate-free (Python indexes `player_ids[0]` and builds a dict). -/
def init_game (player_ids : List String) (deck : List Card) : GameState :=
  let dealt := deal7 player_ids deck
  let scanned := scanFirst dealt.2.reverse []
  -- `deck.extend(wilds)`
  let deck2 := scanned.2.1.reverse ++ scanned.2.2
  let dd : List Card × List Card :=
    match scanned.1 with
    | some c => ([c], deck2)
    | none =>
      match popLast? deck2 with
      | some (c, rest) => ([c], rest)
      | none => ([], deck2)
  let last_color : Color :=
    match dd.1.getLast? with
    | some t => match t.color with
      | some col => col
      | none => Color.red
    | none => Color.red
  { hands := dealt.1
    discard_pile := dd.1
    draw_pile := dd.2
    current_player := player_ids.headD ""
    direction := 1
    last_played_color := some last_color
    pending_draws := 0
    winner := none
    player_order := player_ids
    history := [] }

/-! ### Legality -/

/-- `_effective_color` (`none` models the raise on an empty discard). -/
def effective_color (state : GameState) : Option Color :=
  match state.top_discard with
  | none => none
  | some top =>
    match top.color with
    | some c => some c
    | none => some (state.last_played_color.getD Color.red)

/-- `_card_matches`. -/
def card_matches (card : Card) (state : GameState) : Bool :=
  match state.top_discard with
  | none => false
  | some top =>
    if isWildValue card.value then true
    else if card.color == (effective_color state) then true
    else if card.value == top.value then true
    else false

/-- Expansion of one hand card into actions (wilds expand per color). -/
def expandCard (card : Card) : List Action :=
  if isWildValue card.value then
    colorList.map fun col => Action.playCard card (some col)
  else [Action.playCard card none]

/-- `get_legal_actions`. -/
def get_legal_actions (state : GameState) (player_id : String) : List Action :=
  match state.winner with
  | some _ => []
  | none =>
    if state.current_player ≠ player_id then []
    else if state.pending_draws > 0 then [Action.drawCard]
    else
      let hand := (lookupHand state.hands player_id).getD []
      match state.top_discard with
      | none => (hand.flatMap expandCard) ++ [Action.drawCard]
      | some _ =>
        let playable := hand.filter (fun c => card_matches c state)
        (playable.flatMap expandCard) ++ [Action.drawCard]

/-! ### `apply_action` -/

/-- Reshuffle rule: `if not draw and discard:` move all but the top of
the discard (shuffled) into the draw pile. -/
def reshuffleIfNeeded (shuffle : List Card → List Card)
    (draw discard : List Card) : List Card × List Card :=
  if draw.isEmpty then
    match discard.getLast? with
    | some top => (shuffle discard.dropLast, [top])
    | none => (draw, discard)
  else (draw, discard)

/-- Draw one card into `pid`'s hand (reshuffling first when needed); a
no-op when no card can be supplied.  `keyError` when a card is drawn but
`pid` is not a key (Python reads `hands[pid]` only inside `if draw:`). -/
def drawOneInto (shuffle : List Card → List Card) (hands : Hands)
    (pid : String) (draw discard : List Card) :
    Except UnoError (Hands × List Card × List Card) :=
  let dd := reshuffleIfNeeded shuffle draw discard
  match popLast? dd.1 with
  | none => Except.ok (hands, dd.1, dd.2)
  | some (c, rest) =>
    match lookupHand hands pid with
    | none => Except.error UnoError.keyError
    | some h => Except.ok (updateHand hands pid (h ++ [c]), rest, dd.2)

/-- `for _ in range(n):` of single draws. -/
def drawN (shuffle : List Card → List Card) :
    Nat → Hands → String → List Card → List Card →
    Except UnoError (Hands × List Card × List Card)
  | 0, hands, _, draw, discard => Except.ok (hands, draw, discard)
  | n + 1, hands, pid, draw, discard =>
    match drawOneInto shuffle hands pid draw discard with
    | Except.error e => Except.error e
    | Except.ok (h, dr, di) => drawN shuffle n h pid dr di

/-- Remove the first card in `hand` equal (as a (color, value) pair) to
`card`; `none` when no instance is present. -/
def removeFirst : List Card → Card → Option (List Card)
  | [], _ => none
  | c :: rest, card =>
    if c = card then some rest
    else (removeFirst rest card).map (fun r => c :: r)

/-- `apply_action(state, player_id, action)`.  The shuffle used by the
reshuffle rule is the explicit first parameter. -/
def apply_action (shuffle : List Card → List Card) (state : GameState)
    (player_id : String) (action : Action) : Except UnoError GameState :=
  match state.winner with
  | some _ => Except.ok state
  | none =>
    match action with
    | Action.drawCard =>
      if state.pending_draws > 0 then
        match drawN shuffle state.pending_draws state.hands player_id
            state.draw_pile state.discard_pile with
        | Except.error e => Except.error e
        | Except.ok (hands, draw, discard) =>
          match indexOf? state.player_order state.current_player with
          | none => Except.error UnoError.indexError
          | some idx =>
            match lookupHand hands player_id, lookupHand state.hands player_id with
            | some newH, some oldH =>
              let current := state.player_order.getD
                (stepIdx state.player_order idx state.direction)
                state.current_player
              let n := newH.length - oldH.length
              Except.ok
                { hands := hands
                  discard_pile := discard
                  draw_pile := draw
                  current_player := current
                  direction := state.direction
                  last_played_color := state.last_played_color
                  pending_draws := 0
                  winner := none
                  player_order := state.player_order
                  history := state.history ++ [s!"{player_id} drew {n} cards (penalty)"] }
            | _, _ => Except.error UnoError.keyError
      else
        match drawOneInto shuffle state.hands player_id
            state.draw_pile state.discard_pile with
        | Except.error e => Except.error e
        | Except.ok (hands, draw, discard) =>
          match indexOf? state.player_order state.current_player with
          | none => Except.error UnoError.indexError
          | some idx =>
            let current := state.player_order.getD
              (stepIdx state.player_order idx state.direction)
              state.current_player
            Except.ok
              { hands := hands
                discard_pile := discard
                draw_pile := draw
                current_player := current
                direction := state.direction
                last_played_color := state.last_played_color
                pending_draws := state.pending_draws
                winner := none
                player_order := state.player_order
                history := state.history ++ [s!"{player_id} drew a card"] }
    | Action.playCard card chosen =>
      if chosen.isNone && isWildValue card.value then
        Except.error UnoError.wildNeedsColor
      else
        match lookupHand state.hands player_id with
        | none => Except.error UnoError.keyError
        | some hand0 =>
          match removeFirst hand0 card with
          | none => Except.error UnoError.cardNotInHand
          | some hand =>
            let hands := updateHand state.hands player_id hand
            let discard := state.discard_pile ++ [card]
            let last_color : Option Color :=
              match card.color with
              | some c => some c
              | none => chosen
            if hand.isEmpty then
              let cs := cardStr card
              Except.ok
                { hands := hands
                  discard_pile := discard
                  draw_pile := state.draw_pile
                  current_player := state.current_player
                  direction := state.direction
                  last_played_color := last_color
                  pending_draws := state.pending_draws
                  winner := some player_id
                  player_order := state.player_order
                  history := state.history ++ [s!"{player_id} played {cs} and WON!"] }
            else
              let cs := cardStr card
              let desc := s!"{player_id} played {cs}" ++
                (match chosen with
                 | some col =>
                   let c2 := colorStr col
                   s!" (chose {c2})"
                 | none => "")
              let history := state.history ++ [desc]
              match indexOf? state.player_order state.current_player with
              | none => Except.error UnoError.indexError
              | some idx =>
                let order := state.player_order
                let dir := state.direction
                let nextIdx := stepIdx order idx dir
                if card.value == "skip" then
                  Except.ok
                    { hands := hands
                      discard_pile := discard
                      draw_pile := state.draw_pile
                      current_player := order.getD (stepIdx order nextIdx dir)
                        state.current_player
                      direction := dir
                      last_played_color := last_color
                      pending_draws := state.pending_draws
                      winner := none
                      player_order := order
                      history := history }
                else if card.value == "reverse" then
                  Except.ok
                    { hands := hands
                      discard_pile := discard
                      draw_pile := state.draw_pile
                      current_player := order.getD (stepIdx order idx (-dir))
                        state.current_player
                      direction := -dir
                      last_played_color := last_color
                      pending_draws := state.pending_draws
                      winner := none
                      player_order := order
                      history := history }
                else if card.value == "draw_two" then
                  let skipped := order.getD nextIdx state.current_player
                  match drawN shuffle 2 hands skipped state.draw_pile discard with
                  | Except.error e => Except.error e
                  | Except.ok (hands2, draw2, discard2) =>
                    Except.ok
                      { hands := hands2
                        discard_pile := discard2
                        draw_pile := draw2
                        current_player := order.getD (stepIdx order nextIdx dir)
                          state.current_player
                        direction := dir
                        last_played_color := last_color
                        pending_draws := state.pending_draws
                        winner := none
                        player_order := order
                        history := history }
                else if card.value == "wild_draw_four" then
                  let skipped := order.getD nextIdx state.current_player
                  match drawN shuffle 4 hands skipped state.draw_pile discard with
                  | Except.error e => Except.error e
                  | Except.ok (hands2, draw2, discard2) =>
                    Except.ok
                      { hands := hands2
                        discard_pile := discard2
                        draw_pile := draw2
                        current_player := order.getD (stepIdx order nextIdx dir)
                          state.current_player
                        direction := dir
                        last_played_color := last_color
                        pending_draws := state.pending_draws
                        winner := none
                        player_order := order
                        history := history }
                else
                  Except.ok
                    { hands := hands
                      discard_pile := discard
                      draw_pile := state.draw_pile
                      current_player := order.getD nextIdx state.current_player
                      direction := dir
                      last_played_color := last_color
                      pending_draws := state.pending_draws
                      winner := none
                      player_order := order
                      history := history }

/-! ### Derived quantities, invariants and reachability -/

/-- Total number of cards held in hands. -/
def sumLens (hands : Hands) : Nat :=
  (hands.map fun e => e.2.length).sum

/-- Total card count of a state (spec conservation quantity). -/
def totalCards (s : GameState) : Nat :=
  sumLens s.hands + s.discard_pile.length + s.draw_pile.length

/-- Structural well-formedness maintained by the engine: hand keys are
unique, every player in the order has a hand, the current player is in
the order, and the order is nonempty. -/
def WF (s : GameState) : Prop :=
  (s.hands.map Prod.fst).Nodup ∧
  (∀ pid ∈ s.player_order, (lookupHand s.hands pid).isSome) ∧
  s.current_player ∈ s.player_order ∧
  s.player_order ≠ []

/-- States reachable from `init` by successful `apply_action` calls,
each step using an arbitrary permutation as its reshuffle. -/
inductive Reachable (init : GameState) : GameState → Prop where
  | refl : Reachable init init
  | step {s s' : GameState} (shuffle : List Card → List Card)
      (pid : String) (a : Action) :
      Reachable init s →
      (∀ l : List Card, (shuffle l).Perm l) →
      apply_action shuffle s pid a = Except.ok s' →
      Reachable init s'

/-- The `current_player` computed by the non-winning `PlayCard` branch,
as a function of the pre-state's player order, current player, direction
and the played value only — the acting `player_id` does not appear. -/
def expectedNext (order : List String) (current : String) (dir : Int)
    (v : String) : String :=
  let idx := (indexOf? order current).getD 0
  let nextIdx := stepIdx order idx dir
  if v == "skip" then order.getD (stepIdx order nextIdx dir) current
  else if v == "reverse" then order.getD (stepIdx order idx (-dir)) current
  else if v == "draw_two" || v == "wild_draw_four" then
    order.getD (stepIdx order nextIdx dir) current
  else order.getD nextIdx current

/-! ### Concrete fixtures used to instantiate the theorems -/

/-- A small well-formed 2-player mid-game state: p1 to act, red 3 on the
discard, p1 holding a reverse, a skip and a plain red 5. -/
def exState2 : GameState :=
  { hands := [("p1", [Card.mk (some Color.red) "reverse",
                      Card.mk (some Color.red) "skip",
                      Card.mk (some Color.red) "5"]),
              ("p2", [Card.mk (some Color.blue) "7",
                      Card.mk (some Color.green) "2"])]
    discard_pile := [Card.mk (some Color.red) "3"]
    draw_pile := []
    current_player := "p1"
    direction := 1
    last_played_color := some Color.red
    pending_draws := 0
    winner := none
    player_order := ["p1", "p2"]
    history := [] }

/-- A 2-player state where p1 is one matching card from winning. -/
def winState : GameState :=
  { hands := [("p1", [Card.mk (some Color.red) "5"]),
              ("p2", [Card.mk (some Color.blue) "7"])]
    discard_pile := [Card.mk (some Color.red) "3"]
    draw_pile := [Card.mk (some Color.green) "2"]
    current_player := "p1"
    direction := 1
    last_played_color := some Color.red
    pending_draws := 0
    winner := none
    player_order := ["p1", "p2"]
    history := [] }

/-- The state produced by p1 playing the red 5 from `winState`. -/
def winStateRes : GameState :=
  { hands := [("p1", []), ("p2", [Card.mk (some Color.blue) "7"])]
    discard_pile := [Card.mk (some Color.red) "3", Card.mk (some Color.red) "5"]
    draw_pile := [Card.mk (some Color.green) "2"]
    current_player := "p1"
    direction := 1
    last_played_color := some Color.red
    pending_draws := 0
    winner := some "p1"
    player_order := ["p1", "p2"]
    history := ["p1 played red_5 and WON!"] }

/-- A deck whose pops after the 7-card single-player deal are a
wild_draw_four, a wild, and then the non-wild green 3: `init_game` holds
both wilds aside and re-appends them to the draw pile. -/
def wildTailDeck : List Card :=
  [Card.mk (some Color.blue) "9", Card.mk (some Color.green) "3",
   Card.mk none "wild", Card.mk none "wild_draw_four"] ++
  List.replicate 7 (Card.mk (some Color.red) "5")

/-! ### Basic lemmas about the helpers -/

theorem popLast?_eq_some {α : Type} {l rest : List α} {c : α}
    (h : popLast? l = some (c, rest)) : l = rest ++ [c] := by
  unfold popLast? at h
  cases hl : l.getLast? with
  | none => rw [hl] at h; cases h
  | some x =>
    rw [hl] at h
    have hne : l ≠ [] := by
      intro he; subst he; simp at hl
    have hx : x = l.getLast hne := by
      have := List.getLast?_eq_getLast l hne
      rw [this] at hl; exact (Option.some_inj.mp hl).symm
    cases h
    rw [hx]
    exact (List.dropLast_append_getLast hne).symm

theorem popLast?_length {α : Type} {l rest : List α} {c : α}
    (h : popLast? l = some (c, rest)) : l.length = rest.length + 1 := by
  rw [popLast?_eq_some h]; simp

theorem lookupHand_cons (e : String × List Card) (rest : Hands) (pid : String) :
    lookupHand (e :: rest) pid =
      if e.1 = pid then some e.2 else lookupHand rest pid := rfl

theorem updateHand_cons (e : String × List Card) (rest : Hands) (pid : String)
    (h : List Card) :
    updateHand (e :: rest) pid h =
      (if e.1 = pid then (pid, h) else e) :: updateHand rest pid h := rfl

theorem lookupHand_isSome_iff {hands : Hands} {pid : String} :
    (lookupHand hands pid).isSome ↔ pid ∈ hands.map Prod.fst := by
  induction hands with
  | nil => simp [lookupHand]
  | cons e rest ih =>
    rw [lookupHand_cons]
    by_cases h : e.1 = pid
    · simp [h]
    · simp only [if_neg h, List.map_cons, List.mem_cons, ih]
      constructor
      · exact Or.inr
      · rintro (hp | hp)
        · exact absurd hp.symm h
        · exact hp

theorem updateHand_keys (hands : Hands) (pid : String) (h : List Card) :
    (updateHand hands pid h).map Prod.fst = hands.map Prod.fst := by
  induction hands with
  | nil => rfl
  | cons e rest ih =>
    rw [updateHand_cons]
    by_cases he : e.1 = pid
    · rw [if_pos he]; simp [ih, he]
    · rw [if_neg he]; simp [ih]

theorem lookupHand_updateHand_self {hands : Hands} {pid : String} {v : List Card}
    (hlk : lookupHand hands pid = some v) (h : List Card) :
    lookupHand (updateHand hands pid h) pid = some h := by
  induction hands with
  | nil => cases hlk
  | cons e rest ih =>
    rw [updateHand_cons]
    by_cases he : e.1 = pid
    · rw [if_pos he, lookupHand_cons, if_pos rfl]
    · rw [lookupHand_cons, if_neg he] at hlk
      rw [if_neg he, lookupHand_cons, if_neg he]
      exact ih hlk

theorem lookupHand_updateHand_ne {hands : Hands} {pid q : String}
    (hne : q ≠ pid) (h : List Card) :
    lookupHand (updateHand hands pid h) q = lookupHand hands q := by
  induction hands with
  | nil => rfl
  | cons e rest ih =>
    rw [updateHand_cons, lookupHand_cons e rest q]
    by_cases he : e.1 = pid
    · rw [if_pos he, lookupHand_cons, if_neg (Ne.symm hne), ih,
        if_neg (by rw [he]; exact fun hc => hne hc.symm)]
    · rw [if_neg he, lookupHand_cons, ih]

theorem updateHand_not_mem {hands : Hands} {pid : String}
    (hnm : pid ∉ hands.map Prod.fst) (h : List Card) :
    updateHand hands pid h = hands := by
  induction hands with
  | nil => rfl
  | cons e rest ih =>
    simp only [List.map_cons, List.mem_cons, not_or] at hnm
    rw [updateHand_cons, if_neg (fun hc => hnm.1 hc.symm), ih hnm.2]

theorem sumLens_cons (e : String × List Card) (rest : Hands) :
    sumLens (e :: rest) = e.2.length + sumLens rest := by
  simp [sumLens]

theorem sumLens_updateHand {hands : Hands} {pid : String} {old : List Card}
    (hnd : (hands.map Prod.fst).Nodup)
    (hlk : lookupHand hands pid = some old) (h : List Card) :
    sumLens (updateHand hands pid h) + old.length = sumLens hands + h.length := by
  induction hands with
  | nil => cases hlk
  | cons e rest ih =>
    rw [List.map_cons, List.nodup_cons] at hnd
    rw [updateHand_cons]
    rw [lookupHand_cons] at hlk
    by_cases he : e.1 = pid
    · rw [if_pos he] at hlk
      rw [if_pos he]
      have hcv : e.2 = old := Option.some_inj.mp hlk
      have hrest : updateHand rest pid h = rest := by
        apply updateHand_not_mem
        rw [← he]; exact hnd.1
      rw [hrest, sumLens_cons, sumLens_cons, ← hcv]
      show h.length + sumLens rest + e.2.length = e.2.length + sumLens rest + h.length
      omega
    · rw [if_neg he] at hlk
      rw [if_neg he, sumLens_cons, sumLens_cons]
      have := ih hnd.2 hlk
      omega

theorem indexOf?_isSome_iff {l : List String} {x : String} :
    (indexOf? l x).isSome ↔ x ∈ l := by
  induction l with
  | nil => simp [indexOf?]
  | cons a rest ih =>
    by_cases h : a = x
    · simp [indexOf?, h]
    · simp [indexOf?, h, ih, Ne.symm h]

theorem getD_mem {α : Type} {l : List α} {n : Nat} (d : α) (h : n < l.length) :
    l.getD n d ∈ l := by
  simp [List.getD_eq_getElem?_getD, List.getElem?_eq_getElem h]

theorem stepIdx_lt {order : List String} (hne : order ≠ []) (idx : Nat) (dir : Int) :
    stepIdx order idx dir < order.length := by
  have hpos : 0 < order.length := List.length_pos.mpr hne
  unfold stepIdx
  have hz : (order.length : Int) ≠ 0 := by exact_mod_cast hpos.ne'
  have h0 : (0 : Int) ≤ ((idx : Int) + dir).emod (order.length : Int) :=
    Int.emod_nonneg _ hz
  have h1 : ((idx : Int) + dir).emod (order.length : Int) < (order.length : Int) :=
    Int.emod_lt_of_pos _ (by exact_mod_cast hpos)
  omega

theorem removeFirst_isSome_iff {hand : List Card} {card : Card} :
    (removeFirst hand card).isSome ↔ card ∈ hand := by
  induction hand with
  | nil => simp [removeFirst]
  | cons c rest ih =>
    by_cases h : c = card
    · simp [removeFirst, h]
    · simp [removeFirst, h, ih, Ne.symm h]

theorem removeFirst_length {hand rest : List Card} {card : Card}
    (h : removeFirst hand card = some rest) : hand.length = rest.length + 1 := by
  induction hand generalizing rest with
  | nil => cases h
  | cons c hs ih =>
    by_cases hc : c = card
    · simp [removeFirst, hc] at h
      subst h; rfl
    · simp [removeFirst, hc] at h
      obtain ⟨r, hr, rfl⟩ := h
      simp [ih hr]

theorem indexOf?_some_mem {l : List String} {x : String} {i : Nat}
    (h : indexOf? l x = some i) : x ∈ l :=
  indexOf?_isSome_iff.mp (by rw [h]; rfl)

theorem reshuffleIfNeeded_length {shuffle : List Card → List Card}
    (hlen : ∀ l : List Card, (shuffle l).length = l.length)
    (draw discard : List Card) :
    (reshuffleIfNeeded shuffle draw discard).1.length +
      (reshuffleIfNeeded shuffle draw discard).2.length =
      draw.length + discard.length := by
  unfold reshuffleIfNeeded
  by_cases hd : draw.isEmpty
  · rw [if_pos hd]
    cases hl : discard.getLast? with
    | none => simp
    | some top =>
      have hne : discard ≠ [] := by intro he; subst he; cases hl
      have hdr : draw = [] := List.isEmpty_iff.mp hd
      subst hdr
      have hpos : 0 < discard.length := List.length_pos.mpr hne
      simp [hlen, List.length_dropLast]
      omega
  · rw [if_neg hd]

theorem drawOneInto_ok {shuffle : List Card → List Card} {hands : Hands}
    {pid : String} {draw discard : List Card}
    {h' : Hands} {dr' di' : List Card}
    (h : drawOneInto shuffle hands pid draw discard = Except.ok (h', dr', di')) :
    h'.map Prod.fst = hands.map Prod.fst ∧
    ((∀ l : List Card, (shuffle l).length = l.length) →
      (hands.map Prod.fst).Nodup →
      sumLens h' + dr'.length + di'.length =
        sumLens hands + draw.length + discard.length) := by
  simp only [drawOneInto] at h
  rcases hdd : reshuffleIfNeeded shuffle draw discard with ⟨dr1, di1⟩
  rw [hdd] at h
  cases hpop : popLast? dr1 with
  | none =>
    rw [hpop] at h
    simp only [Except.ok.injEq, Prod.mk.injEq] at h
    obtain ⟨rfl, rfl, rfl⟩ := h
    refine ⟨rfl, fun hlen _ => ?_⟩
    have hres := reshuffleIfNeeded_length hlen draw discard
    rw [hdd] at hres
    have h2 : dr1.length + di1.length = draw.length + discard.length := by
      simpa using hres
    omega
  | some cr =>
    rw [hpop] at h
    cases hlk : lookupHand hands pid with
    | none => rw [hlk] at h; cases h
    | some h0 =>
      rw [hlk] at h
      simp only [Except.ok.injEq, Prod.mk.injEq] at h
      obtain ⟨rfl, rfl, rfl⟩ := h
      refine ⟨updateHand_keys hands pid (h0 ++ [cr.1]), fun hlen hnd => ?_⟩
      have hres := reshuffleIfNeeded_length hlen draw discard
      rw [hdd] at hres
      have h2 : dr1.length + di1.length = draw.length + discard.length := by
        simpa using hres
      have hupd := sumLens_updateHand hnd hlk (h0 ++ [cr.1])
      have hlenpop := popLast?_length hpop
      simp at hupd
      omega

theorem drawOneInto_isOk {shuffle : List Card → List Card} {hands : Hands}
    {pid : String} (draw discard : List Card)
    (hk : (lookupHand hands pid).isSome) :
    ∃ out, drawOneInto shuffle hands pid draw discard = Except.ok out := by
  simp only [drawOneInto]
  rcases hdd : reshuffleIfNeeded shuffle draw discard with ⟨dr1, di1⟩
  cases hpop : popLast? dr1 with
  | none => exact ⟨_, rfl⟩
  | some cr =>
    cases hlk : lookupHand hands pid with
    | none => rw [hlk] at hk; cases hk
    | some h0 => exact ⟨_, rfl⟩

theorem drawN_ok {shuffle : List Card → List Card} :
    ∀ {n : Nat} {hands : Hands} {pid : String} {draw discard : List Card}
      {h' : Hands} {dr' di' : List Card},
    drawN shuffle n hands pid draw discard = Except.ok (h', dr', di') →
    h'.map Prod.fst = hands.map Prod.fst ∧
    ((∀ l : List Card, (shuffle l).length = l.length) →
      (hands.map Prod.fst).Nodup →
      sumLens h' + dr'.length + di'.length =
        sumLens hands + draw.length + discard.length) := by
  intro n
  induction n with
  | zero =>
    intro hands pid draw discard h' dr' di' h
    simp only [drawN, Except.ok.injEq, Prod.mk.injEq] at h
    obtain ⟨rfl, rfl, rfl⟩ := h
    exact ⟨rfl, fun _ _ => rfl⟩
  | succ m ih =>
    intro hands pid draw discard h' dr' di' h
    unfold drawN at h
    cases h1 : drawOneInto shuffle hands pid draw discard with
    | error e => rw [h1] at h; cases h
    | ok mid =>
      obtain ⟨mh, mdr, mdi⟩ := mid
      rw [h1] at h
      obtain ⟨hk1, hs1⟩ := drawOneInto_ok h1
      obtain ⟨hk2, hs2⟩ := ih h
      refine ⟨hk2.trans hk1, fun hlen hnd => ?_⟩
      have e1 := hs1 hlen hnd
      have e2 := hs2 hlen (by rw [hk1]; exact hnd)
      omega

theorem drawN_isOk {shuffle : List Card → List Card} :
    ∀ (n : Nat) {hands : Hands} {pid : String} (draw discard : List Card),
    (lookupHand hands pid).isSome →
    ∃ out, drawN shuffle n hands pid draw discard = Except.ok out := by
  intro n
  induction n with
  | zero => intro hands pid draw discard _; exact ⟨_, rfl⟩
  | succ m ih =>
    intro hands pid draw discard hk
    obtain ⟨mid, hmid⟩ := @drawOneInto_isOk shuffle hands pid draw discard hk
    obtain ⟨mh, mdr, mdi⟩ := mid
    have hkeys := (drawOneInto_ok hmid).1
    have hk2 : (lookupHand mh pid).isSome := by
      rw [lookupHand_isSome_iff, hkeys, ← lookupHand_isSome_iff]; exact hk
    obtain ⟨out, hout⟩ := ih mdr mdi hk2
    refine ⟨out, ?_⟩
    unfold drawN
    rw [hmid]
    exact hout

/-! ### Reachability and well-formedness -/

theorem getD_mem_of_mem {order : List String} {cur : String}
    (h : cur ∈ order) (k : Nat) : order.getD k cur ∈ order := by
  by_cases hk : k < order.length
  · exact getD_mem _ hk
  · rw [List.getD_eq_default _ _ (Nat.le_of_not_lt hk)]
    exact h

/-- Every successful `apply_action` step keeps the player order and the
set of hand keys, moves `current_player` only within the order, never
makes `pending_draws` positive, and (for a length-preserving shuffle and
unique hand keys) conserves the total card count. -/
theorem apply_action_ok_master {shuffle : List Card → List Card}
    {s s' : GameState} {pid : String} {a : Action}
    (h : apply_action shuffle s pid a = Except.ok s') :
    s'.player_order = s.player_order ∧
    s'.hands.map Prod.fst = s.hands.map Prod.fst ∧
    (s'.current_player = s.current_player ∨ s'.current_player ∈ s.player_order) ∧
    (s'.pending_draws = 0 ∨ s'.pending_draws = s.pending_draws) ∧
    ((∀ l : List Card, (shuffle l).length = l.length) →
      (s.hands.map Prod.fst).Nodup → totalCards s' = totalCards s) := by
  simp only [apply_action] at h
  split at h
  · -- winner already set: state returned unchanged
    injection h with h
    subst h
    exact ⟨rfl, rfl, Or.inl rfl, Or.inr rfl, fun _ _ => rfl⟩
  · split at h
    · -- DrawCard
      split at h
      · -- pending_draws > 0
        split at h
        · cases h
        · next hands draw discard heq =>
          split at h
          · cases h
          · next idx hidx =>
            split at h
            · next newH oldH h1 h2 =>
              injection h with h
              subst h
              refine ⟨rfl, (drawN_ok heq).1,
                Or.inr (getD_mem_of_mem (indexOf?_some_mem hidx) _),
                Or.inl rfl, fun hlen hnd => ?_⟩
              have hc := (drawN_ok heq).2 hlen hnd
              simp only [totalCards]
              omega
            · cases h
      · -- regular draw
        split at h
        · cases h
        · next hands draw discard heq =>
          split at h
          · cases h
          · next idx hidx =>
            injection h with h
            subst h
            refine ⟨rfl, (drawOneInto_ok heq).1,
              Or.inr (getD_mem_of_mem (indexOf?_some_mem hidx) _),
              Or.inr rfl, fun hlen hnd => ?_⟩
            have hc := (drawOneInto_ok heq).2 hlen hnd
            simp only [totalCards]
            omega
    · -- PlayCard
      next card chosen =>
      split at h
      · cases h
      · split at h
        · cases h
        · next hand0 hlk =>
          split at h
          · cases h
          · next hand hrm =>
            split at h
            · -- winning play
              injection h with h
              subst h
              refine ⟨rfl, updateHand_keys _ _ _, Or.inl rfl, Or.inr rfl,
                fun hlen hnd => ?_⟩
              have h1 := sumLens_updateHand hnd hlk hand
              have h2 := removeFirst_length hrm
              simp only [totalCards, List.length_append, List.length_cons,
                List.length_nil]
              omega
            · split at h
              · cases h
              · next idx hidx =>
                split at h
                · -- skip
                  injection h with h
                  subst h
                  refine ⟨rfl, updateHand_keys _ _ _,
                    Or.inr (getD_mem_of_mem (indexOf?_some_mem hidx) _),
                    Or.inr rfl, fun hlen hnd => ?_⟩
                  have h1 := sumLens_updateHand hnd hlk hand
                  have h2 := removeFirst_length hrm
                  simp only [totalCards, List.length_append, List.length_cons,
                    List.length_nil]
                  omega
                · split at h
                  · -- reverse
                    injection h with h
                    subst h
                    refine ⟨rfl, updateHand_keys _ _ _,
                      Or.inr (getD_mem_of_mem (indexOf?_some_mem hidx) _),
                      Or.inr rfl, fun hlen hnd => ?_⟩
                    have h1 := sumLens_updateHand hnd hlk hand
                    have h2 := removeFirst_length hrm
                    simp only [totalCards, List.length_append, List.length_cons,
                      List.length_nil]
                    omega
                  · split at h
                    · -- draw_two
                      split at h
                      · cases h
                      · next hands2 draw2 discard2 heq2 =>
                        injection h with h
                        subst h
                        refine ⟨rfl, (drawN_ok heq2).1.trans (updateHand_keys _ _ _),
                          Or.inr (getD_mem_of_mem (indexOf?_some_mem hidx) _),
                          Or.inr rfl, fun hlen hnd => ?_⟩
                        have hdk := (drawN_ok heq2).2 hlen
                          (by rw [updateHand_keys]; exact hnd)
                        have h1 := sumLens_updateHand hnd hlk hand
                        have h2 := removeFirst_length hrm
                        simp only [totalCards, List.length_append,
                          List.length_cons, List.length_nil] at hdk ⊢
                        omega
                    · split at h
                      · -- wild_draw_four
                        split at h
                        · cases h
                        · next hands2 draw2 discard2 heq2 =>
                          injection h with h
                          subst h
                          refine ⟨rfl, (drawN_ok heq2).1.trans (updateHand_keys _ _ _),
                            Or.inr (getD_mem_of_mem (indexOf?_some_mem hidx) _),
                            Or.inr rfl, fun hlen hnd => ?_⟩
                          have hdk := (drawN_ok heq2).2 hlen
                            (by rw [updateHand_keys]; exact hnd)
                          have h1 := sumLens_updateHand hnd hlk hand
                          have h2 := removeFirst_length hrm
                          simp only [totalCards, List.length_append,
                            List.length_cons, List.length_nil] at hdk ⊢
                          omega
                      · -- plain card
                        injection h with h
                        subst h
                        refine ⟨rfl, updateHand_keys _ _ _,
                          Or.inr (getD_mem_of_mem (indexOf?_some_mem hidx) _),
                          Or.inr rfl, fun hlen hnd => ?_⟩
                        have h1 := sumLens_updateHand hnd hlk hand
                        have h2 := removeFirst_length hrm
                        simp only [totalCards, List.length_append,
                          List.length_cons, List.length_nil]
                        omega

/-! ### Facts about `init_game` -/

theorem initHands_keys (pids : List String) :
    (initHands pids).map Prod.fst = pids := by
  induction pids with
  | nil => rfl
  | cons p rest ih => simp [initHands] at ih ⊢; exact ih

theorem sumLens_initHands (pids : List String) : sumLens (initHands pids) = 0 := by
  induction pids with
  | nil => rfl
  | cons p rest ih =>
    rw [initHands, List.map_cons, ← initHands, sumLens_cons, ih]
    rfl

theorem dealRound_spec (pids : List String) :
    ∀ (hands : Hands) (deck : List Card),
    (∀ p ∈ pids, (lookupHand hands p).isSome) →
    (dealRound pids (hands, deck)).1.map Prod.fst = hands.map Prod.fst ∧
    ((hands.map Prod.fst).Nodup →
      sumLens (dealRound pids (hands, deck)).1 +
        (dealRound pids (hands, deck)).2.length =
        sumLens hands + deck.length) := by
  induction pids with
  | nil => intro hands deck _; exact ⟨rfl, fun _ => rfl⟩
  | cons p rest ih =>
    intro hands deck hsub
    have hd : dealRound (p :: rest) (hands, deck) =
        dealRound rest
          (match popLast? deck with
           | none => (hands, deck)
           | some (c, r) =>
             (updateHand hands p (((lookupHand hands p).getD []) ++ [c]), r)) := by
      rfl
    cases hpop : popLast? deck with
    | none =>
      rw [hd, hpop]
      exact ih hands deck (fun q hq => hsub q (List.mem_cons_of_mem p hq))
    | some cr =>
      obtain ⟨c0, r0⟩ := cr
      have hd2 : dealRound (p :: rest) (hands, deck) =
          dealRound rest
            (updateHand hands p (((lookupHand hands p).getD []) ++ [c0]), r0) := by
        rw [hd, hpop]
      rw [hd2]
      have hkp : (lookupHand hands p).isSome := hsub p (List.mem_cons_self p rest)
      cases hlk : lookupHand hands p with
      | none => rw [hlk] at hkp; cases hkp
      | some old =>
        simp only [Option.getD_some]
        have hkeys := updateHand_keys hands p (old ++ [c0])
        have hsub' : ∀ q ∈ rest,
            (lookupHand (updateHand hands p (old ++ [c0])) q).isSome := by
          intro q hq
          rw [lookupHand_isSome_iff, hkeys, ← lookupHand_isSome_iff]
          exact hsub q (List.mem_cons_of_mem p hq)
        obtain ⟨ihk, ihs⟩ := ih _ r0 hsub'
        refine ⟨ihk.trans hkeys, fun hnd => ?_⟩
        have hupd := sumLens_updateHand hnd hlk (old ++ [c0])
        simp at hupd
        have hlp := popLast?_length hpop
        have := ihs (by rw [hkeys]; exact hnd)
        omega

theorem deal7_spec (pids : List String) (deck : List Card) :
    (deal7 pids deck).1.map Prod.fst = pids ∧
    (pids.Nodup →
      sumLens (deal7 pids deck).1 + (deal7 pids deck).2.length = deck.length) := by
  have main : ∀ (l : List Unit) (hands : Hands) (dk : List Card),
      (∀ p ∈ pids, (lookupHand hands p).isSome) →
      (l.foldl (fun acc _ => dealRound pids acc) (hands, dk)).1.map Prod.fst =
        hands.map Prod.fst ∧
      ((hands.map Prod.fst).Nodup →
        sumLens (l.foldl (fun acc _ => dealRound pids acc) (hands, dk)).1 +
          (l.foldl (fun acc _ => dealRound pids acc) (hands, dk)).2.length =
          sumLens hands + dk.length) := by
    intro l
    induction l with
    | nil => intro hands dk _; exact ⟨rfl, fun _ => rfl⟩
    | cons u rest ih =>
      intro hands dk hsub
      rcases hdr : dealRound pids (hands, dk) with ⟨h1, d1⟩
      obtain ⟨hk1, hs1⟩ := dealRound_spec pids hands dk hsub
      rw [hdr] at hk1 hs1
      simp only at hk1 hs1
      have hsub1 : ∀ p ∈ pids, (lookupHand h1 p).isSome := by
        intro q hq
        rw [lookupHand_isSome_iff, hk1, ← lookupHand_isSome_iff]
        exact hsub q hq
      obtain ⟨ihk, ihs⟩ := ih h1 d1 hsub1
      constructor
      · simp only [List.foldl_cons, hdr]
        exact ihk.trans hk1
      · intro hnd
        simp only [List.foldl_cons, hdr]
        have e1 := hs1 hnd
        have e2 := ihs (by rw [hk1]; exact hnd)
        omega
  have hsub0 : ∀ p ∈ pids, (lookupHand (initHands pids) p).isSome := by
    intro p hp
    rw [lookupHand_isSome_iff, initHands_keys]
    exact hp
  have hrange : deal7 pids deck =
      ((List.range 7).map fun _ => ()).foldl (fun acc _ => dealRound pids acc)
        (initHands pids, deck) := by
    unfold deal7
    rw [List.foldl_map]
  obtain ⟨hk, hs⟩ := main ((List.range 7).map fun _ => ()) (initHands pids) deck hsub0
  rw [← hrange] at hk hs
  refine ⟨hk.trans (initHands_keys pids), fun hnd => ?_⟩
  have := hs (by rw [initHands_keys]; exact hnd)
  rw [sumLens_initHands] at this
  omega

theorem scanFirst_none {l w rest w' : List Card}
    (h : scanFirst l w = (none, rest, w')) : rest = [] ∧ w' = w ++ l := by
  induction l generalizing w with
  | nil =>
    simp only [scanFirst, Prod.mk.injEq] at h
    exact ⟨h.2.1.symm, by rw [← h.2.2]; simp⟩
  | cons c cs ih =>
    unfold scanFirst at h
    by_cases hw : isWildValue c.value
    · rw [if_pos hw] at h
      obtain ⟨h1, h2⟩ := ih h
      exact ⟨h1, by rw [h2]; simp⟩
    · rw [if_neg hw] at h
      simp at h

theorem scanFirst_some {l w rest w' : List Card} {c : Card}
    (h : scanFirst l w = (some c, rest, w')) :
    ∃ ws, w' = w ++ ws ∧ l = ws ++ c :: rest ∧
      (∀ x ∈ ws, isWildValue x.value = true) ∧ isWildValue c.value = false := by
  induction l generalizing w with
  | nil => simp [scanFirst] at h
  | cons d ds ih =>
    unfold scanFirst at h
    by_cases hw : isWildValue d.value
    · rw [if_pos hw] at h
      obtain ⟨ws, h1, h2, h3, h4⟩ := ih h
      refine ⟨d :: ws, ?_, by rw [h2]; rfl, ?_, h4⟩
      · rw [h1]; simp
      · intro x hx
        rcases List.mem_cons.mp hx with hx | hx
        · subst hx; exact hw
        · exact h3 x hx
    · rw [if_neg hw] at h
      simp only [Prod.mk.injEq, Option.some.injEq] at h
      obtain ⟨hc, hrest, hww⟩ := h
      subst hc
      subst hrest
      subst hww
      refine ⟨[], by simp, by simp, by simp, ?_⟩
      simpa using hw

theorem totalCards_init {pids : List String} {deck : List Card}
    (hnd : pids.Nodup) : totalCards (init_game pids deck) = deck.length := by
  obtain ⟨hk7, hs7⟩ := deal7_spec pids deck
  have hs7' := hs7 hnd
  simp only [init_game]
  rcases hdeal : deal7 pids deck with ⟨hands, deck1⟩
  rw [hdeal] at hk7 hs7'
  simp only at hk7 hs7'
  rcases hscan : scanFirst deck1.reverse [] with ⟨f, restRev, wilds⟩
  cases f with
  | some c =>
    obtain ⟨ws, hw1, hw2, _, _⟩ := scanFirst_some hscan
    have hlen : deck1.length = ws.length + (restRev.length + 1) := by
      have : deck1.reverse.length = (ws ++ c :: restRev).length := by rw [← hw2]
      simpa using this
    simp only [totalCards]
    simp [hw1] at *
    omega
  | none =>
    obtain ⟨hrest, hwilds⟩ := scanFirst_none hscan
    subst hrest
    simp only [List.nil_append] at hwilds
    have hwl : wilds.length = deck1.length := by rw [hwilds]; simp
    cases hpop : popLast? (([] : List Card).reverse ++ wilds) with
    | none =>
      simp only [totalCards]
      simp [hpop]
      omega
    | some cr =>
      have hl := popLast?_length hpop
      simp only [totalCards]
      simp [hpop]
      simp at hl
      omega

theorem init_WF {pids : List String} {deck : List Card}
    (hnd : pids.Nodup) (hne : pids ≠ []) : WF (init_game pids deck) := by
  obtain ⟨hk7, _⟩ := deal7_spec pids deck
  have hhands : (init_game pids deck).hands = (deal7 pids deck).1 := by
    simp only [init_game]
  have horder : (init_game pids deck).player_order = pids := by
    simp only [init_game]
  have hcur : (init_game pids deck).current_player = pids.headD "" := by
    simp only [init_game]
  refine ⟨?_, ?_, ?_, ?_⟩
  · rw [hhands, hk7]; exact hnd
  · intro p hp
    rw [horder] at hp
    rw [hhands, lookupHand_isSome_iff, hk7]
    exact hp
  · rw [hcur, horder]
    cases pids with
    | nil => exact absurd rfl hne
    | cons a rest => simp
  · rw [horder]; exact hne

/-- Invariant carried by every reachable state: well-formedness, card
conservation relative to the initial deck, zero pending draws, and an
unchanged player order. -/
theorem reachable_inv {pids : List String} {deck : List Card} {s : GameState}
    (hnd : pids.Nodup) (hne : pids ≠ [])
    (hr : Reachable (init_game pids deck) s) :
    WF s ∧ totalCards s = deck.length ∧ s.pending_draws = 0 ∧
      s.player_order = pids := by
  induction hr with
  | refl => exact ⟨init_WF hnd hne, totalCards_init hnd, rfl, rfl⟩
  | step shuffle pid a hr hperm happ ih =>
    obtain ⟨⟨ihnd, ihkeys, ihcur, ihone⟩, ihtot, ihpend, ihord⟩ := ih
    obtain ⟨hord, hkeys, hcur, hpend, htot⟩ := apply_action_ok_master happ
    refine ⟨⟨?_, ?_, ?_, ?_⟩, ?_, ?_, ?_⟩
    · rw [hkeys]; exact ihnd
    · intro p hp
      rw [hord] at hp
      rw [lookupHand_isSome_iff, hkeys, ← lookupHand_isSome_iff]
      exact ihkeys p hp
    · rcases hcur with hcur | hcur
      · rw [hcur, hord]; exact ihcur
      · rw [hord]; exact hcur
    · rw [hord]; exact ihone
    · rw [htot (fun l => (hperm l).length_eq) ihnd]; exact ihtot
    · rcases hpend with hp | hp
      · exact hp
      · rw [hp]; exact ihpend
    · rw [hord]; exact ihord

/-! ### Legal actions analysis -/

theorem expandCard_mem {card : Card} {a : Action} (h : a ∈ expandCard card)
    {hand : List Card} (hc : card ∈ hand) :
    ∃ card' chosen, a = Action.playCard card' chosen ∧ card' ∈ hand ∧
      (isWildValue card'.value = true → chosen.isSome) := by
  unfold expandCard at h
  by_cases hw : isWildValue card.value
  · rw [if_pos hw] at h
    obtain ⟨col, _, rfl⟩ := List.mem_map.mp h
    exact ⟨card, some col, rfl, hc, fun _ => rfl⟩
  · rw [if_neg hw] at h
    simp at h
    subst h
    exact ⟨card, none, rfl, hc, fun hww => absurd hww (by simpa using hw)⟩

theorem mem_get_legal_actions {s : GameState} {p : String} {a : Action}
    (h : a ∈ get_legal_actions s p) :
    s.winner = none ∧ s.current_player = p ∧
    (a = Action.drawCard ∨
      ∃ card chosen, a = Action.playCard card chosen ∧
        card ∈ (lookupHand s.hands p).getD [] ∧
        (isWildValue card.value = true → chosen.isSome)) := by
  simp only [get_legal_actions] at h
  cases hw : s.winner with
  | some w => rw [hw] at h; simp at h
  | none =>
    rw [hw] at h
    by_cases hcur : s.current_player ≠ p
    · rw [if_pos hcur] at h; simp at h
    · rw [if_neg hcur] at h
      push_neg at hcur
      refine ⟨rfl, hcur, ?_⟩
      by_cases hpend : s.pending_draws > 0
      · rw [if_pos hpend] at h
        simp at h
        exact Or.inl h
      · rw [if_neg hpend] at h
        cases htop : s.top_discard with
        | none =>
          rw [htop] at h
          rcases List.mem_append.mp h with h | h
          · obtain ⟨card, hcard, hexp⟩ := List.mem_flatMap.mp h
            exact Or.inr (expandCard_mem hexp hcard)
          · exact Or.inl (by simpa using h)
        | some t =>
          rw [htop] at h
          rcases List.mem_append.mp h with h | h
          · obtain ⟨card, hcard, hexp⟩ := List.mem_flatMap.mp h
            exact Or.inr (expandCard_mem hexp (List.mem_of_mem_filter hcard))
          · exact Or.inl (by simpa using h)

/-- Under well-formedness with no pending draws, an action produced by
`get_legal_actions` is always applied successfully. -/
theorem apply_action_legal_ok {shuffle : List Card → List Card} {s : GameState}
    {p : String} {a : Action}
    (hWF : WF s) (hpend : s.pending_draws = 0)
    (ha : a ∈ get_legal_actions s p) :
    ∃ s', apply_action shuffle s p a = Except.ok s' := by
  obtain ⟨hnd, hkeys, hcur, hone⟩ := hWF
  obtain ⟨hw, hcurp, hcase⟩ := mem_get_legal_actions ha
  have hkp : (lookupHand s.hands p).isSome := hkeys p (hcurp ▸ hcur)
  have hio : (indexOf? s.player_order s.current_player).isSome :=
    indexOf?_isSome_iff.mpr hcur
  rcases hcase with rfl | ⟨card, chosen, rfl, hcard, hwc⟩
  · -- DrawCard
    simp only [apply_action]
    split
    · next w hweq => rw [hweq] at hw; cases hw
    · split
      · next hp => rw [hpend] at hp; omega
      · split
        · next e heq =>
          obtain ⟨out, hmid⟩ :=
            @drawOneInto_isOk shuffle s.hands p s.draw_pile s.discard_pile hkp
          rw [heq] at hmid; cases hmid
        · next hands draw discard heq =>
          split
          · next hidx => rw [hidx] at hio; cases hio
          · next idx hidx => exact ⟨_, rfl⟩
  · -- PlayCard
    have hcond : (chosen.isNone && isWildValue card.value) = false := by
      by_cases hwv : isWildValue card.value
      · have := hwc hwv
        cases chosen with
        | none => simp at this
        | some c => simp
      · simp [hwv]
    simp only [apply_action]
    split
    · next w hweq => rw [hweq] at hw; cases hw
    · split
      · next hc => rw [hcond] at hc; cases hc
      · split
        · next hlk => rw [hlk] at hkp; cases hkp
        · next hand0 hlk =>
          rw [hlk] at hcard
          simp only [Option.getD_some] at hcard
          have hrmS : (removeFirst hand0 card).isSome :=
            removeFirst_isSome_iff.mpr hcard
          split
          · next hrm => rw [hrm] at hrmS; cases hrmS
          · next hand1 hrm =>
            split
            · exact ⟨_, rfl⟩
            · split
              · next hidx => rw [hidx] at hio; cases hio
              · next idx hidx =>
                split
                · exact ⟨_, rfl⟩
                · split
                  · exact ⟨_, rfl⟩
                  · split
                    · -- draw_two
                      have hsk : (lookupHand (updateHand s.hands p hand1)
                          (s.player_order.getD
                            (stepIdx s.player_order idx s.direction)
                            s.current_player)).isSome := by
                        rw [lookupHand_isSome_iff, updateHand_keys,
                          ← lookupHand_isSome_iff]
                        exact hkeys _ (getD_mem_of_mem hcur _)
                      obtain ⟨out, hok⟩ := @drawN_isOk shuffle 2
                        (updateHand s.hands p hand1)
                        (s.player_order.getD
                          (stepIdx s.player_order idx s.direction)
                          s.current_player)
                        s.draw_pile (s.discard_pile ++ [card]) hsk
                      obtain ⟨oh, odr, odi⟩ := out
                      split
                      · next e heq => rw [heq] at hok; cases hok
                      · next hands2 draw2 discard2 heq => exact ⟨_, rfl⟩
                    · split
                      · -- wild_draw_four
                        have hsk : (lookupHand (updateHand s.hands p hand1)
                            (s.player_order.getD
                              (stepIdx s.player_order idx s.direction)
                              s.current_player)).isSome := by
                          rw [lookupHand_isSome_iff, updateHand_keys,
                            ← lookupHand_isSome_iff]
                          exact hkeys _ (getD_mem_of_mem hcur _)
                        obtain ⟨out, hok⟩ := @drawN_isOk shuffle 4
                          (updateHand s.hands p hand1)
                          (s.player_order.getD
                            (stepIdx s.player_order idx s.direction)
                            s.current_player)
                          s.draw_pile (s.discard_pile ++ [card]) hsk
                        obtain ⟨oh, odr, odi⟩ := out
                        split
                        · next e heq => rw [heq] at hok; cases hok
                        · next hands2 draw2 discard2 heq => exact ⟨_, rfl⟩
                      · exact ⟨_, rfl⟩

/-- A `PlayCard` of a card present in the hand, with a chosen color when
wild, always succeeds on a well-formed non-terminal state — no matter
whether `p` is the current player or the card matches the discard — and
the non-winning `current_player` is `expectedNext` of the state's own
fields. -/
theorem apply_action_playCard_ok {shuffle : List Card → List Card}
    {s : GameState} {p : String} {card : Card} {chosen : Option Color}
    {hand0 hand1 : List Card}
    (hWF : WF s) (hw : s.winner = none)
    (hlk : lookupHand s.hands p = some hand0)
    (hrm : removeFirst hand0 card = some hand1)
    (hcond : (chosen.isNone && isWildValue card.value) = false) :
    ∃ s', apply_action shuffle s p (Action.playCard card chosen) =
      Except.ok s' ∧
      (hand1 ≠ [] → s'.current_player =
        expectedNext s.player_order s.current_player s.direction
          card.value) := by
  obtain ⟨hnd, hkeys, hcur, hone⟩ := hWF
  have hio : (indexOf? s.player_order s.current_player).isSome :=
    indexOf?_isSome_iff.mpr hcur
  simp only [apply_action]
  split
  · next w hweq => rw [hw] at hweq; cases hweq
  · split
    · next hc => rw [hcond] at hc; cases hc
    · split
      · next hlk2 => rw [hlk] at hlk2; cases hlk2
      · next hand0' hlk2 =>
        rw [hlk] at hlk2
        injection hlk2 with hlk2
        subst hlk2
        split
        · next hrm2 => rw [hrm] at hrm2; cases hrm2
        · next hand1' hrm2 =>
          rw [hrm] at hrm2
          injection hrm2 with hrm2
          subst hrm2
          split
          · next hemp =>
            refine ⟨_, rfl, fun hne => ?_⟩
            exact absurd (List.isEmpty_iff.mp hemp) hne
          · split
            · next hidx => rw [hidx] at hio; cases hio
            · next idx hidx =>
              split
              · next hsk =>
                refine ⟨_, rfl, fun _ => ?_⟩
                simp only [expectedNext, hidx, Option.getD_some, hsk,
                  if_true]
              · next hsk =>
                split
                · next hrv =>
                  refine ⟨_, rfl, fun _ => ?_⟩
                  simp only [expectedNext, hidx, Option.getD_some,
                    Bool.not_eq_true] at hsk ⊢
                  rw [hsk, hrv]
                  simp
                · next hrv =>
                  split
                  · next hd2 =>
                    have hsk2 : (lookupHand (updateHand s.hands p hand1)
                        (s.player_order.getD
                          (stepIdx s.player_order idx s.direction)
                          s.current_player)).isSome := by
                      rw [lookupHand_isSome_iff, updateHand_keys,
                        ← lookupHand_isSome_iff]
                      exact hkeys _ (getD_mem_of_mem hcur _)
                    obtain ⟨out, hok⟩ := @drawN_isOk shuffle 2
                      (updateHand s.hands p hand1)
                      (s.player_order.getD
                        (stepIdx s.player_order idx s.direction)
                        s.current_player)
                      s.draw_pile (s.discard_pile ++ [card]) hsk2
                    obtain ⟨oh, odr, odi⟩ := out
                    split
                    · next e heq => rw [heq] at hok; cases hok
                    · next hands2 draw2 discard2 heq =>
                      refine ⟨_, rfl, fun _ => ?_⟩
                      simp only [expectedNext, hidx, Option.getD_some,
                        Bool.not_eq_true] at hsk hrv ⊢
                      rw [hsk, hrv, hd2]
                      simp
                  · next hd2 =>
                    split
                    · next hw4 =>
                      have hsk2 : (lookupHand (updateHand s.hands p hand1)
                          (s.player_order.getD
                            (stepIdx s.player_order idx s.direction)
                            s.current_player)).isSome := by
                        rw [lookupHand_isSome_iff, updateHand_keys,
                          ← lookupHand_isSome_iff]
                        exact hkeys _ (getD_mem_of_mem hcur _)
                      obtain ⟨out, hok⟩ := @drawN_isOk shuffle 4
                        (updateHand s.hands p hand1)
                        (s.player_order.getD
                          (stepIdx s.player_order idx s.direction)
                          s.current_player)
                        s.draw_pile (s.discard_pile ++ [card]) hsk2
                      obtain ⟨oh, odr, odi⟩ := out
                      split
                      · next e heq => rw [heq] at hok; cases hok
                      · next hands2 draw2 discard2 heq =>
                        refine ⟨_, rfl, fun _ => ?_⟩
                        simp only [expectedNext, hidx, Option.getD_some,
                          Bool.not_eq_true] at hsk hrv ⊢
                        rw [hsk, hrv, hw4]
                        simp
                    · next hw4 =>
                      refine ⟨_, rfl, fun _ => ?_⟩
                      simp only [expectedNext, hidx, Option.getD_some,
                        Bool.not_eq_true] at hsk hrv hd2 hw4 ⊢
                      rw [hsk, hrv, hd2, hw4]
                      simp

/-- A `DrawCard` always succeeds for a player of the order on a
well-formed non-terminal state, whatever `pending_draws` is. -/
theorem apply_action_drawCard_ok {shuffle : List Card → List Card}
    {s : GameState} {p : String}
    (hWF : WF s) (hp : p ∈ s.player_order) (hw : s.winner = none) :
    ∃ s', apply_action shuffle s p Action.drawCard = Except.ok s' := by
  obtain ⟨hnd, hkeys, hcur, hone⟩ := hWF
  have hkp : (lookupHand s.hands p).isSome := hkeys p hp
  have hio : (indexOf? s.player_order s.current_player).isSome :=
    indexOf?_isSome_iff.mpr hcur
  simp only [apply_action]
  split
  · next w hweq => rw [hw] at hweq; cases hweq
  · split
    · -- pending_draws > 0
      obtain ⟨out, hok⟩ := @drawN_isOk shuffle s.pending_draws s.hands p
        s.draw_pile s.discard_pile hkp
      obtain ⟨oh, odr, odi⟩ := out
      have hkeq := (drawN_ok hok).1
      split
      · next e heq => rw [heq] at hok; cases hok
      · next hands draw discard heq =>
        rw [heq] at hok
        injection hok with hok
        rw [Prod.mk.injEq, Prod.mk.injEq] at hok
        obtain ⟨h1, h2, h3⟩ := hok
        subst h1
        split
        · next hidx => rw [hidx] at hio; cases hio
        · next idx hidx =>
          have hk1 : (lookupHand hands p).isSome := by
            rw [lookupHand_isSome_iff, hkeq, ← lookupHand_isSome_iff]
            exact hkp
          cases hl1 : lookupHand hands p with
          | none => rw [hl1] at hk1; cases hk1
          | some newH =>
            cases hl2 : lookupHand s.hands p with
            | none => rw [hl2] at hkp; cases hkp
            | some oldH => exact ⟨_, rfl⟩
    · -- regular draw
      obtain ⟨mid, hmid⟩ := @drawOneInto_isOk shuffle s.hands p
        s.draw_pile s.discard_pile hkp
      obtain ⟨mh, mdr, mdi⟩ := mid
      split
      · next e heq => rw [heq] at hmid; cases hmid
      · next hands draw discard heq =>
        split
        · next hidx => rw [hidx] at hio; cases hio
        · next idx hidx => exact ⟨_, rfl⟩

/-! ### Claim theorems -/

/-- C1: in every state reachable from `init_game(player_ids, seed)` (the
seeded shuffle being an arbitrary permutation of the standard deck) by
successful `apply_action` calls, the total number of cards across all
hands plus the discard pile plus the draw pile is exactly 108. -/
theorem conservation_of_cards {pids : List String} {deck : List Card}
    {s : GameState} (hnd : pids.Nodup) (hne : pids ≠ [])
    (hdeck : deck.Perm fullDeck)
    (hr : Reachable (init_game pids deck) s) :
    totalCards s = 108 := by
  rw [(reachable_inv hnd hne hr).2.1, hdeck.length_eq]
  rfl

/-- Witness: the conservation theorem at the freshly initialized
2-player game over the unshuffled standard deck. -/
theorem conservation_of_cards_witness :
    totalCards (init_game ["p1", "p2"] fullDeck) = 108 :=
  conservation_of_cards (by decide) (by decide) (List.Perm.refl _)
    Reachable.refl

/-- C2: at any reachable state whose current player is `p`, every action
returned by `get_legal_actions s p` is applied by `apply_action` without
error (the card-not-in-hand and wild-without-chosen-color branches can
never fire on the generator's own output), for any reshuffle function. -/
theorem legal_actions_always_apply {pids : List String} {deck : List Card}
    {s : GameState} {p : String} {a : Action}
    (shuffle : List Card → List Card)
    (hnd : pids.Nodup) (hne : pids ≠ [])
    (hr : Reachable (init_game pids deck) s)
    (hcur : s.current_player = p)
    (ha : a ∈ get_legal_actions s p) :
    ∃ s', apply_action shuffle s p a = Except.ok s' := by
  obtain ⟨hWF, _, hpend, _⟩ := reachable_inv hnd hne hr
  exact apply_action_legal_ok hWF hpend ha

/-- Witness: drawing, which is always legal, applies successfully at a
freshly initialized game. -/
theorem legal_actions_always_apply_witness :
    ∃ s', apply_action id (init_game ["p1", "p2"] []) "p1" Action.drawCard =
      Except.ok s' :=
  legal_actions_always_apply id (by decide) (by decide) Reachable.refl rfl
    (by decide)

/-- C9: `pending_draws` is 0 in every reachable state — `apply_action`
never assigns it a positive value (draw_two / wild_draw_four penalties
are dealt to the victim within the same transition), so the
`pending_draws > 0` branches of `get_legal_actions` and `apply_action`
never run in normal play. -/
theorem pending_draws_reachable_zero {pids : List String} {deck : List Card}
    {s : GameState} (hnd : pids.Nodup) (hne : pids ≠ [])
    (hr : Reachable (init_game pids deck) s) :
    s.pending_draws = 0 :=
  (reachable_inv hnd hne hr).2.2.1

/-- Witness: zero pending draws at a freshly initialized game. -/
theorem pending_draws_reachable_zero_witness :
    (init_game ["p1", "p2"] []).pending_draws = 0 :=
  pending_draws_reachable_zero (by decide) (by decide) Reachable.refl

/-- C8: for any permutation shuffle (seeded or unseeded), `create_deck`
returns exactly 108 cards: for each of the 4 colors one "0" and two
each of "1"–"9", "skip", "reverse", "draw_two", plus exactly four
"wild" and four "wild_draw_four" cards. -/
theorem create_deck_composition (shuffle : List Card → List Card)
    (hperm : ∀ l : List Card, (shuffle l).Perm l) :
    (create_deck shuffle).length = 108 ∧
    (∀ c : Color, (create_deck shuffle).count (Card.mk (some c) "0") = 1) ∧
    (∀ c : Color, ∀ v ∈ CARD_VALUES_STANDARD.drop 1,
      (create_deck shuffle).count (Card.mk (some c) v) = 2) ∧
    (create_deck shuffle).count (Card.mk none "wild") = 4 ∧
    (create_deck shuffle).count (Card.mk none "wild_draw_four") = 4 := by
  have hp : (create_deck shuffle).Perm fullDeck := hperm fullDeck
  refine ⟨by rw [hp.length_eq]; rfl, fun c => ?_, fun c v hv => ?_, ?_, ?_⟩
  · rw [hp.count_eq]; cases c <;> rfl
  · rw [hp.count_eq]
    simp only [CARD_VALUES_STANDARD, List.drop, List.mem_cons,
      List.not_mem_nil, or_false] at hv
    cases c <;>
      (rcases hv with rfl | rfl | rfl | rfl | rfl | rfl | rfl | rfl | rfl |
        rfl | rfl | rfl <;> rfl)
  · rw [hp.count_eq]; rfl
  · rw [hp.count_eq]; rfl

/-- Witness: the deck composition at the identity (unshuffled) deck. -/
theorem create_deck_composition_witness :
    (create_deck id).length = 108 ∧
    (∀ c : Color, (create_deck id).count (Card.mk (some c) "0") = 1) ∧
    (∀ c : Color, ∀ v ∈ CARD_VALUES_STANDARD.drop 1,
      (create_deck id).count (Card.mk (some c) v) = 2) ∧
    (create_deck id).count (Card.mk none "wild") = 4 ∧
    (create_deck id).count (Card.mk none "wild_draw_four") = 4 :=
  create_deck_composition id (fun l => List.Perm.refl l)

/-- C4: a `PlayCard` that removes the acting player's last card makes
the state terminal: `winner` is set to the actor, `current_player` is
left at the input state's value (no next-player computation), exactly
one history entry is appended, and `get_legal_actions` on the result is
empty for every player. -/
theorem win_play_terminalizes {shuffle : List Card → List Card}
    {s s' : GameState} {p : String} {card : Card} {chosen : Option Color}
    {hand0 : List Card}
    (hw : s.winner = none)
    (hlk : lookupHand s.hands p = some hand0)
    (hrm : removeFirst hand0 card = some [])
    (happ : apply_action shuffle s p (Action.playCard card chosen) =
      Except.ok s') :
    s'.winner = some p ∧ s'.current_player = s.current_player ∧
    s'.history.length = s.history.length + 1 ∧
    ∀ q, get_legal_actions s' q = [] := by
  simp only [apply_action] at happ
  split at happ
  · next w hweq => rw [hw] at hweq; cases hweq
  · split at happ
    · cases happ
    · split at happ
      · next hlk2 => rw [hlk] at hlk2; cases hlk2
      · next hand0' hlk2 =>
        rw [hlk] at hlk2
        injection hlk2 with hlk2
        subst hlk2
        split at happ
        · next hrm2 => rw [hrm] at hrm2; cases hrm2
        · next hand1 hrm2 =>
          rw [hrm] at hrm2
          injection hrm2 with hrm2
          subst hrm2
          split at happ
          · injection happ with happ
            subst happ
            exact ⟨rfl, rfl, by simp, fun q => rfl⟩
          · next hne => simp at hne

/-- Witness: p1 playing the lone red 5 from `winState` terminalizes the
game exactly as described. -/
theorem win_play_terminalizes_witness :
    winStateRes.winner = some "p1" ∧
    winStateRes.current_player = winState.current_player ∧
    winStateRes.history.length = winState.history.length + 1 ∧
    ∀ q, get_legal_actions winStateRes q = [] :=
  @win_play_terminalizes id winState winStateRes "p1"
    (Card.mk (some Color.red) "5") none [Card.mk (some Color.red) "5"]
    rfl (by decide) (by decide) rfl

/-- C3 counterexample: in the 2-player state `exState2` (order
[p1, p2], p1 to act, direction +1), both the red reverse and the red
skip are legal non-winning plays, yet reverse leaves p2 as
current_player while skip leaves p1 — the results are not the same, so
reverse is not "the sole opponent is bypassed identically". -/
theorem reverse_vs_skip_counterexample :
    (Action.playCard (Card.mk (some Color.red) "reverse") none ∈
      get_legal_actions exState2 "p1") ∧
    (Action.playCard (Card.mk (some Color.red) "skip") none ∈
      get_legal_actions exState2 "p1") ∧
    ((apply_action id exState2 "p1"
        (Action.playCard (Card.mk (some Color.red) "reverse") none)).map
      GameState.winner = Except.ok none) ∧
    ((apply_action id exState2 "p1"
        (Action.playCard (Card.mk (some Color.red) "skip") none)).map
      GameState.winner = Except.ok none) ∧
    ((apply_action id exState2 "p1"
        (Action.playCard (Card.mk (some Color.red) "reverse") none)).map
      GameState.current_player = Except.ok "p2") ∧
    ((apply_action id exState2 "p1"
        (Action.playCard (Card.mk (some Color.red) "skip") none)).map
      GameState.current_player = Except.ok "p1") ∧
    ("p1" : String) ≠ "p2" :=
  ⟨by decide, by decide, rfl, rfl, rfl, rfl, by decide⟩

/-- C3 (amended): in a 2-player game [p1, p2] with p1 to act and
direction +1, a legal non-winning reverse play sets `current_player` to
p2 and flips the direction, whereas a legal non-winning skip play sets
`current_player` back to p1: the two cards do not have the same effect
on `current_player` in this implementation. -/
theorem reverse_vs_skip_two_player {shuffle : List Card → List Card}
    {s : GameState} {p1 p2 : String} {hand0 h1 h2 : List Card} {cr cs : Card}
    (horder : s.player_order = [p1, p2])
    (hcur : s.current_player = p1)
    (hdir : s.direction = 1)
    (hw : s.winner = none)
    (hlk : lookupHand s.hands p1 = some hand0)
    (hcrv : cr.value = "reverse") (hcsv : cs.value = "skip")
    (hcrl : card_matches cr s = true) (hcsl : card_matches cs s = true)
    (hrm1 : removeFirst hand0 cr = some h1) (hne1 : h1 ≠ [])
    (hrm2 : removeFirst hand0 cs = some h2) (hne2 : h2 ≠ []) :
    (∃ s', apply_action shuffle s p1 (Action.playCard cr none) =
        Except.ok s' ∧ s'.current_player = p2 ∧ s'.direction = -1) ∧
    (∃ s', apply_action shuffle s p1 (Action.playCard cs none) =
        Except.ok s' ∧ s'.current_player = p1) := by
  constructor
  · -- the reverse play
    simp only [apply_action]
    split
    · next w hweq => rw [hw] at hweq; cases hweq
    · split
      · next hc => rw [hcrv] at hc; simp [isWildValue] at hc
      · split
        · next hlk2 => rw [hlk] at hlk2; cases hlk2
        · next hand0' hlk2 =>
          rw [hlk] at hlk2
          injection hlk2 with hlk2
          subst hlk2
          split
          · next hrm => rw [hrm1] at hrm; cases hrm
          · next hand1 hrm =>
            rw [hrm1] at hrm
            injection hrm with hrm
            subst hrm
            split
            · next hemp =>
              rw [List.isEmpty_iff] at hemp
              exact absurd hemp hne1
            · split
              · next hidx =>
                rw [horder, hcur] at hidx
                simp [indexOf?] at hidx
              · next idx hidx =>
                rw [horder, hcur] at hidx
                simp [indexOf?] at hidx
                subst hidx
                split
                · next hsk => rw [hcrv] at hsk; simp at hsk
                · split
                  · refine ⟨_, rfl, ?_, ?_⟩
                    · rw [horder, hdir]; norm_num [stepIdx]
                    · rw [hdir]
                  · next hrv => rw [hcrv] at hrv; simp at hrv
  · -- the skip play
    simp only [apply_action]
    split
    · next w hweq => rw [hw] at hweq; cases hweq
    · split
      · next hc => rw [hcsv] at hc; simp [isWildValue] at hc
      · split
        · next hlk2 => rw [hlk] at hlk2; cases hlk2
        · next hand0' hlk2 =>
          rw [hlk] at hlk2
          injection hlk2 with hlk2
          subst hlk2
          split
          · next hrm => rw [hrm2] at hrm; cases hrm
          · next hand1 hrm =>
            rw [hrm2] at hrm
            injection hrm with hrm
            subst hrm
            split
            · next hemp =>
              rw [List.isEmpty_iff] at hemp
              exact absurd hemp hne2
            · split
              · next hidx =>
                rw [horder, hcur] at hidx
                simp [indexOf?] at hidx
              · next idx hidx =>
                rw [horder, hcur] at hidx
                simp [indexOf?] at hidx
                subst hidx
                split
                · refine ⟨_, rfl, ?_⟩
                  rw [horder, hdir]; norm_num [stepIdx]
                · next hsk => rw [hcsv] at hsk; simp at hsk

/-- Witness: the amended reverse/skip statement at `exState2`. -/
theorem reverse_vs_skip_two_player_witness :
    (∃ s', apply_action id exState2 "p1"
        (Action.playCard (Card.mk (some Color.red) "reverse") none) =
        Except.ok s' ∧ s'.current_player = "p2" ∧ s'.direction = -1) ∧
    (∃ s', apply_action id exState2 "p1"
        (Action.playCard (Card.mk (some Color.red) "skip") none) =
        Except.ok s' ∧ s'.current_player = "p1") :=
  @reverse_vs_skip_two_player id exState2 "p1" "p2"
    [Card.mk (some Color.red) "reverse", Card.mk (some Color.red) "skip",
     Card.mk (some Color.red) "5"]
    [Card.mk (some Color.red) "skip", Card.mk (some Color.red) "5"]
    [Card.mk (some Color.red) "reverse", Card.mk (some Color.red) "5"]
    (Card.mk (some Color.red) "reverse") (Card.mk (some Color.red) "skip")
    rfl rfl rfl rfl (by decide) rfl rfl (by decide) (by decide)
    (by decide) (by decide) (by decide) (by decide)

/-- C10: `apply_action` checks neither that `player_id` is the current
player nor that the played card matches the top discard: on any
well-formed non-terminal state, a `PlayCard` of a card present in
`player_id`'s hand succeeds (even out of turn, even non-matching), and
the non-winning `current_player` is computed by `expectedNext` from the
state's own `current_player` — `player_id` does not enter. -/
theorem apply_action_no_turn_or_match_check {shuffle : List Card → List Card}
    {s : GameState} {p : String} {card : Card} {chosen : Option Color}
    {hand0 hand1 : List Card}
    (hWF : WF s) (hw : s.winner = none)
    (hlk : lookupHand s.hands p = some hand0)
    (hrm : removeFirst hand0 card = some hand1)
    (hwc : isWildValue card.value = true → chosen.isSome) :
    ∃ s', apply_action shuffle s p (Action.playCard card chosen) =
      Except.ok s' ∧
      (hand1 ≠ [] → s'.current_player =
        expectedNext s.player_order s.current_player s.direction
          card.value) := by
  have hcond : (chosen.isNone && isWildValue card.value) = false := by
    by_cases hwv : isWildValue card.value
    · have := hwc hwv
      cases chosen with
      | none => simp at this
      | some c => simp
    · simp [hwv]
  exact apply_action_playCard_ok hWF hw hlk hrm hcond

/-- Witness: p2 plays the blue 7 out of turn (p1 is current) and the
card does not match the red 3 on the discard, yet the play succeeds and
the new current player is stepped from p1, not from p2. -/
theorem apply_action_no_turn_or_match_check_witness :
    ("p2" ≠ exState2.current_player) ∧
    (card_matches (Card.mk (some Color.blue) "7") exState2 = false) ∧
    (∃ s', apply_action id exState2 "p2"
        (Action.playCard (Card.mk (some Color.blue) "7") none) =
        Except.ok s' ∧
      ([Card.mk (some Color.green) "2"] ≠ ([] : List Card) →
        s'.current_player = expectedNext exState2.player_order
          exState2.current_player exState2.direction
          (Card.mk (some Color.blue) "7").value)) :=
  ⟨by decide, by decide,
    @apply_action_no_turn_or_match_check id exState2 "p2"
      (Card.mk (some Color.blue) "7") none
      [Card.mk (some Color.blue) "7", Card.mk (some Color.green) "2"]
      [Card.mk (some Color.green) "2"]
      ⟨by decide, by decide, by decide, by decide⟩ rfl (by decide)
      (by decide) (by decide)⟩

/-- C5: `apply_action` returns the input state unchanged when a winner
is already set; otherwise, on a well-formed state, it errors exactly
when the action is a `PlayCard` naming a (color, value) with no
instance in the player's hand or a wild `PlayCard` without
`chosen_color`; all other actions return a new state without error. -/
theorem apply_action_error_characterization {shuffle : List Card → List Card}
    {s : GameState} {p : String} {a : Action} {hand0 : List Card}
    (hWF : WF s) (hp : p ∈ s.player_order)
    (hlk : lookupHand s.hands p = some hand0) :
    (∀ w, s.winner = some w → apply_action shuffle s p a = Except.ok s) ∧
    (s.winner = none →
      ((∃ e, apply_action shuffle s p a = Except.error e) ↔
        ∃ card chosen, a = Action.playCard card chosen ∧
          (card ∉ hand0 ∨
            (isWildValue card.value = true ∧ chosen = none)))) := by
  constructor
  · intro w hww
    simp only [apply_action, hww]
  · intro hw
    constructor
    · rintro ⟨e, he⟩
      by_contra hnb
      push_neg at hnb
      cases a with
      | drawCard =>
        obtain ⟨s', hs'⟩ := apply_action_drawCard_ok hWF hp hw
        rw [hs'] at he; cases he
      | playCard card chosen =>
        obtain ⟨hmem, hnc⟩ := hnb card chosen rfl
        obtain ⟨hand1, hrm⟩ :=
          Option.isSome_iff_exists.mp (removeFirst_isSome_iff.mpr hmem)
        have hcond : (chosen.isNone && isWildValue card.value) = false := by
          by_cases hwv : isWildValue card.value
          · have := hnc hwv
            cases chosen with
            | none => exact absurd rfl this
            | some c => simp
          · simp [hwv]
        obtain ⟨s', hs', _⟩ := apply_action_playCard_ok hWF hw hlk hrm hcond
        rw [hs'] at he; cases he
    · rintro ⟨card, chosen, rfl, hbad⟩
      by_cases hwn : (chosen.isNone && isWildValue card.value) = true
      · simp only [apply_action]
        split
        · next w hweq => rw [hw] at hweq; cases hweq
        · split
          · exact ⟨_, rfl⟩
          · next hc => exact absurd hwn hc
      · have hni : card ∉ hand0 := by
          rcases hbad with h | h
          · exact h
          · exfalso
            apply hwn
            rw [h.2, h.1]
            rfl
        simp only [apply_action]
        split
        · next w hweq => rw [hw] at hweq; cases hweq
        · split
          · next hc => exact absurd hc hwn
          · split
            · next hlk2 => rw [hlk] at hlk2; cases hlk2
            · next hand0' hlk2 =>
              rw [hlk] at hlk2
              injection hlk2 with hlk2
              subst hlk2
              split
              · exact ⟨_, rfl⟩
              · next hand1 hrm2 =>
                have : card ∈ hand0 := removeFirst_isSome_iff.mp
                  (by rw [hrm2]; rfl)
                exact absurd this hni

/-- Witness: at `exState2`, p1 submitting a green 9 (absent from the
hand) errors, characterized by the iff; with a winner set the state
would be returned unchanged. -/
theorem apply_action_error_characterization_witness :
    (∀ w, exState2.winner = some w →
      apply_action id exState2 "p1"
        (Action.playCard (Card.mk (some Color.green) "9") none) =
        Except.ok exState2) ∧
    (exState2.winner = none →
      ((∃ e, apply_action id exState2 "p1"
          (Action.playCard (Card.mk (some Color.green) "9") none) =
          Except.error e) ↔
        ∃ card chosen,
          Action.playCard (Card.mk (some Color.green) "9") none =
            Action.playCard card chosen ∧
          (card ∉ [Card.mk (some Color.red) "reverse",
                   Card.mk (some Color.red) "skip",
                   Card.mk (some Color.red) "5"] ∨
            (isWildValue card.value = true ∧ chosen = none)))) :=
  @apply_action_error_characterization id exState2 "p1"
    (Action.playCard (Card.mk (some Color.green) "9") none)
    [Card.mk (some Color.red) "reverse", Card.mk (some Color.red) "skip",
     Card.mk (some Color.red) "5"]
    ⟨by decide, by decide, by decide, by decide⟩ (by decide) (by decide)

/-- C6 counterexample: with `wildTailDeck` the two wilds are held aside
in drawn order [wild_draw_four, wild]; the claim predicts the next two
cards drawn after initialization are again [wild_draw_four, wild], but
they are [wild, wild_draw_four] — the relative order is reversed. -/
theorem init_wild_return_counterexample :
    ((scanFirst (deal7 ["p1"] wildTailDeck).2.reverse []).2.2 =
      [Card.mk none "wild_draw_four", Card.mk none "wild"]) ∧
    ((init_game ["p1"] wildTailDeck).draw_pile.reverse.take 2 =
      [Card.mk none "wild", Card.mk none "wild_draw_four"]) ∧
    ¬ ((init_game ["p1"] wildTailDeck).draw_pile.reverse.take 2 =
      [Card.mk none "wild_draw_four", Card.mk none "wild"]) :=
  ⟨by decide, by decide, by decide⟩

/-- C6 (amended): the held-aside wilds are returned to the draw pile
positioned as the very next cards drawn, ahead of the untouched
remainder, but in the REVERSE of the order in which they were drawn
(`deck.extend(wilds)` re-appends them to the pop end, so the last-drawn
wild is re-drawn first). -/
theorem init_wild_return_order {pids : List String} {deck : List Card}
    {c : Card} {restRev wilds : List Card}
    (hscan : scanFirst (deal7 pids deck).2.reverse [] =
      (some c, restRev, wilds)) :
    (init_game pids deck).draw_pile = restRev.reverse ++ wilds ∧
    (init_game pids deck).draw_pile.reverse.take wilds.length =
      wilds.reverse := by
  have hdp : (init_game pids deck).draw_pile = restRev.reverse ++ wilds := by
    simp only [init_game, hscan]
  refine ⟨hdp, ?_⟩
  rw [hdp, List.reverse_append, List.reverse_reverse]
  have hl : wilds.length = wilds.reverse.length :=
    (List.length_reverse wilds).symm
  rw [hl, List.take_left]

/-- Witness: the amended wild-return statement at `wildTailDeck`. -/
theorem init_wild_return_order_witness :
    ((init_game ["p1"] wildTailDeck).draw_pile =
      [Card.mk (some Color.blue) "9"].reverse ++
        [Card.mk none "wild_draw_four", Card.mk none "wild"]) ∧
    ((init_game ["p1"] wildTailDeck).draw_pile.reverse.take
        [Card.mk none "wild_draw_four", Card.mk none "wild"].length =
      [Card.mk none "wild_draw_four", Card.mk none "wild"].reverse) :=
  @init_wild_return_order ["p1"] wildTailDeck
    (Card.mk (some Color.green) "3") [Card.mk (some Color.blue) "9"]
    [Card.mk none "wild_draw_four", Card.mk none "wild"] (by decide)

theorem map_len_updateHand {hands : Hands} {q : String} {hq : List Card}
    (hnd : (hands.map Prod.fst).Nodup)
    (hlk : lookupHand hands q = some hq) {newHand : List Card}
    (hlen : newHand.length = hq.length) :
    (updateHand hands q newHand).map (fun e => (e.1, e.2.length)) =
      hands.map (fun e => (e.1, e.2.length)) := by
  induction hands with
  | nil => cases hlk
  | cons e rest ih =>
    rw [List.map_cons, List.nodup_cons] at hnd
    rw [lookupHand_cons] at hlk
    rw [updateHand_cons]
    by_cases he : e.1 = q
    · rw [if_pos he] at hlk ⊢
      have hev : e.2 = hq := Option.some_inj.mp hlk
      have hrest : updateHand rest q newHand = rest := by
        apply updateHand_not_mem
        rw [← he]; exact hnd.1
      rw [hrest, List.map_cons, List.map_cons]
      congr 1
      simp [he, hev, hlen]
    · rw [if_neg he] at hlk ⊢
      rw [List.map_cons, List.map_cons, ih hnd.2 hlk]

/-- C7: `PlayerView.from_state` exposes no other player's card
identities through any field: replacing some other player's hand by any
hand of the same length leaves the viewer's entire view unchanged. -/
theorem player_view_no_leak {s : GameState} {viewer q : String}
    {hq : List Card}
    (hnd : (s.hands.map Prod.fst).Nodup)
    (hne : q ≠ viewer)
    (hlk : lookupHand s.hands q = some hq)
    {newHand : List Card}
    (hlen : newHand.length = hq.length) :
    PlayerView.from_state { s with hands := updateHand s.hands q newHand }
      viewer = PlayerView.from_state s viewer := by
  simp only [PlayerView.from_state, GameState.top_discard]
  congr 1
  · exact congrArg (fun o => Option.getD o [])
      (lookupHand_updateHand_ne (Ne.symm hne) newHand)
  · exact map_len_updateHand hnd hlk hlen

/-- Witness: replacing p2's two cards by two different cards leaves
p1's view unchanged. -/
theorem player_view_no_leak_witness :
    PlayerView.from_state
      { exState2 with hands := (updateHand exState2.hands "p2"
          [Card.mk (some Color.yellow) "1", Card.mk (some Color.yellow) "4"]) }
      "p1" = PlayerView.from_state exState2 "p1" :=
  @player_view_no_leak exState2 "p1" "p2"
    [Card.mk (some Color.blue) "7", Card.mk (some Color.green) "2"]
    (by decide) (by decide) (by decide)
    [Card.mk (some Color.yellow) "1", Card.mk (some Color.yellow) "4"]
    (by decide)

end Uno
